import Mathlib

/-!
Verification development for the fill-construction core (sysobjects/fills.py).

Modelling conventions:
* timestamps are `Nat`, quantities and prices are `Rat`;
* a pandas `NaN` price is `none : Option Rat`;
* a pandas series is a list of (timestamp, value) pairs in index order;
* Python exceptions are the `Except.error` branch of `Except String _`;
* the two sentinel objects `missing_order` and `not_filled` are constructors
  of `FillResult`, alongside genuine `Fill` values.
-/

/-- The `Fill` dataclass: timestamp, signed quantity, price, slippage flag
(default `false`).  The price is `Option Rat` because the position-series
path can construct a `Fill` whose price is pandas `NaN`. -/
structure Fill where
  date : Nat
  qty : Rat
  price : Option Rat
  includes_slippage : Bool := false
deriving DecidableEq, Repr

/-- The possible results of a fill-producing function: a genuine `Fill`, or
one of the two sentinel singletons `missing_order` / `not_filled`. -/
inductive FillResult where
  | fill (f : Fill)
  | missing_order
  | not_filled
deriving DecidableEq, Repr

/-- `ListOfFills.__init__`: keeps `fill` when `fill is not (missing_order or
not_filled)`.  Both sentinels are plain truthy Python objects, so the
parenthesised expression `(missing_order or not_filled)` evaluates to
`missing_order`, and the filter removes only `missing_order`. -/
def ListOfFills (list_of_fills : List FillResult) : List FillResult :=
  list_of_fills.filter (fun fill => fill ≠ FillResult.missing_order)

/-- Helper for `seriesDiff`: carries the previous value along the list. -/
def diffAux : Option Rat → List (Nat × Option Rat) → List (Nat × Option Rat)
  | _, [] => []
  | prev, (t, v) :: rest =>
    (t, prev.bind (fun a => v.map (fun b => b - a))) :: diffAux v rest

/-- `positions.diff()`: first difference of a series; an entry is undefined
(`none`) when either the current or the previous value is undefined, and the
first entry is always undefined. -/
def seriesDiff (positions : List (Nat × Option Rat)) : List (Nat × Option Rat) :=
  diffAux none positions

/-- `trades[~trades.isna()]`: drop the undefined entries of a series. -/
def dropNA (s : List (Nat × Option Rat)) : List (Nat × Rat) :=
  s.filterMap (fun p => p.2.map (fun v => (p.1, v)))

/-- `trades_without_na[trades_without_na != 0]`: drop the zero entries. -/
def dropZeros (s : List (Nat × Rat)) : List (Nat × Rat) :=
  s.filter (fun p => p.2 ≠ 0)

/-- The entry used by `price.reindex([t], method="ffill")`: the last entry of
the price series whose timestamp is at most `t` (for a monotonic price index
this is the most recent price at or before `t`). -/
def ffillEntry (price : List (Nat × Rat)) (t : Nat) : Option (Nat × Rat) :=
  (price.filter (fun p => p.1 ≤ t)).getLast?

/-- The value produced by forward-fill reindexing at timestamp `t`; `none` is
pandas `NaN` (no price at or before `t`). -/
def ffillLookup (price : List (Nat × Rat)) (t : Nat) : Option Rat :=
  (ffillEntry price t).map Prod.snd

/-- `_get_valid_trades_and_aligned_prices`: diff the positions, drop undefined
and zero trades, and align prices to the surviving trade timestamps with
forward fill. -/
def _get_valid_trades_and_aligned_prices (positions : List (Nat × Option Rat))
    (price : List (Nat × Rat)) : List (Nat × Rat) × List (Nat × Option Rat) :=
  let trades := seriesDiff positions
  let trades_without_na := dropNA trades
  let trades_without_zeros := dropZeros trades_without_na
  let prices_aligned_to_trades :=
    trades_without_zeros.map (fun p => (p.1, ffillLookup price p.1))
  (trades_without_zeros, prices_aligned_to_trades)

/-- `_list_of_fills_from_position_series_and_prices`: zip the trade dates,
quantities and aligned prices into `Fill` values and build a `ListOfFills`. -/
def _list_of_fills_from_position_series_and_prices
    (positions : List (Nat × Option Rat)) (price : List (Nat × Rat)) :
    List FillResult :=
  let pair := _get_valid_trades_and_aligned_prices positions price
  let trades_as_list := pair.1.map Prod.snd
  let prices_as_list := pair.2.map Prod.snd
  let dates_as_list := pair.2.map Prod.fst
  let list_of_fills_as_list :=
    (dates_as_list.zip (trades_as_list.zip prices_as_list)).map
      (fun x => FillResult.fill ⟨x.1, x.2.1, x.2.2, false⟩)
  ListOfFills list_of_fills_as_list

/-- `ListOfFills.from_position_series_and_prices`: the classmethod applies the
`ListOfFills` constructor to the result of the helper. -/
def ListOfFills.from_position_series_and_prices
    (positions : List (Nat × Option Rat)) (price : List (Nat × Rat)) :
    List FillResult :=
  ListOfFills (_list_of_fills_from_position_series_and_prices positions price)

/-- Python attribute access `fill.qty` succeeds only on genuine fills;
on a sentinel it raises `AttributeError`, modelled as `none`. -/
def asFill : FillResult → Option Fill
  | .fill f => some f
  | _ => none

/-- `ListOfFills._as_dict_of_lists`: the parallel qty, price and date lists
(`none` when some member is a sentinel and attribute access raises). -/
def _as_dict_of_lists (l : List FillResult) :
    Option (List Rat × List (Option Rat) × List Nat) :=
  (l.mapM asFill).map (fun fills =>
    (fills.map Fill.qty, fills.map Fill.price, fills.map Fill.date))

/-- The row order used by `df.sort_index()`: ascending by the date index. -/
def rowLe (a b : Nat × Rat × Option Rat) : Prop := a.1 ≤ b.1

instance : DecidableRel rowLe := fun a b => Nat.decLe a.1 b.1

instance : IsTrans (Nat × Rat × Option Rat) rowLe := ⟨fun _ _ _ hab hbc => le_trans hab hbc⟩

instance : IsTotal (Nat × Rat × Option Rat) rowLe := ⟨fun a b => Nat.le_total a.1 b.1⟩

/-- `ListOfFills.as_pd_df`: a date-indexed table of (date, qty, price) rows
sorted ascending by date. -/
def ListOfFills.as_pd_df (l : List FillResult) :
    Option (List (Nat × Rat × Option Rat)) :=
  (_as_dict_of_lists l).map (fun d =>
    let rows := d.2.2.zip (d.1.zip d.2.1)
    List.insertionSort rowLe rows)

/-- Modelled from the spec: `SimpleOrder` (sysobjects/orders.py is not part of
the visible source) carries a signed `quantity` and either a market-order flag
or a `limit_price`; `limit_price = none` encodes the market-order flag. -/
structure SimpleOrder where
  quantity : Rat
  limit_price : Option Rat
deriving DecidableEq, Repr

/-- Modelled from the spec: a zero-order has `quantity == 0`. -/
def SimpleOrder.is_zero_order (o : SimpleOrder) : Bool := o.quantity == 0

/-- Modelled from the spec: a market order carries no limit price. -/
def SimpleOrder.is_market_order (o : SimpleOrder) : Bool := o.limit_price.isNone

/-- `fill_from_simple_market_order`: always fills at the market price with no
slippage. -/
def fill_from_simple_market_order (simple_order : SimpleOrder)
    (market_price : Rat) (fill_datetime : Nat) : FillResult :=
  .fill ⟨fill_datetime, simple_order.quantity, some market_price, false⟩

/-- `fill_from_simple_order`: a buy fills iff the limit is above the market, a
sell iff the limit is below; a fill is priced at the limit with
`includes_slippage = True`, otherwise `not_filled`.  Reading `limit_price`
from an order without one and comparing it raises `TypeError` in Python. -/
def fill_from_simple_limit_order (simple_order : SimpleOrder)
    (market_price : Rat) (fill_datetime : Nat) : Except String FillResult :=
  match simple_order.limit_price with
  | none => .error "TypeError: NoneType comparison"
  | some limit_price =>
    if simple_order.quantity > 0 ∧ limit_price > market_price then
      .ok (.fill ⟨fill_datetime, simple_order.quantity, some limit_price, true⟩)
    else if simple_order.quantity < 0 ∧ limit_price < market_price then
      .ok (.fill ⟨fill_datetime, simple_order.quantity, some limit_price, true⟩)
    else
      .ok .not_filled

/-- `fill_from_simple_order`: dispatch zero-order / market order / limit
order, in that textual order. -/
def fill_from_simple_order (simple_order : SimpleOrder) (market_price : Rat)
    (fill_datetime : Nat) : Except String FillResult :=
  if simple_order.is_zero_order then
    .ok .not_filled
  else if simple_order.is_market_order then
    .ok (fill_from_simple_market_order simple_order market_price fill_datetime)
  else
    fill_from_simple_limit_order simple_order market_price fill_datetime

/-- `fill_list_of_simple_orders`: resolve each order, build a `ListOfFills`
from the results, and branch on its length (0, 1, more). -/
def fill_list_of_simple_orders (list_of_orders : List SimpleOrder)
    (fill_datetime : Nat) (market_price : Rat) : Except String FillResult := do
  let raw ← list_of_orders.mapM
    (fun simple_order => fill_from_simple_order simple_order market_price fill_datetime)
  let list_of_fills := ListOfFills raw
  match list_of_fills with
  | [] => return .not_filled
  | [f] => return f
  | _ => throw "List of orders has produced more than one fill!"

/-- Modelled from the spec: the generic execution-stack `Order`
(sysexecution/orders/base_orders.py is not part of the visible source) with a
trade vector, a filled-quantity vector, an optional filled price and an
optional fill timestamp. -/
structure Order where
  trade : List Rat
  fill : List Rat
  filled_price : Option Rat
  fill_datetime : Option Nat
deriving DecidableEq, Repr

/-- Modelled from the spec: `fill_equals_zero` holds when the net fill is
exactly zero. -/
def Order.fill_equals_zero (order : Order) : Bool := order.fill.sum == 0

/-- `fill_from_order`: assert a single-leg trade vector, then return
`missing_order` on zero net fill, read `order.fill[0]` (an `IndexError` if the
fill vector is empty), then return `missing_order` on a missing price or
timestamp, else the extracted `Fill`. -/
def fill_from_order (order : Order) : Except String FillResult :=
  if order.trade.length ≠ 1 then
    .error "Cant get fills from multi-leg orders"
  else if order.fill_equals_zero then
    .ok .missing_order
  else
    match order.fill.head? with
    | none => .error "IndexError"
    | some fill_qty =>
      match order.filled_price, order.fill_datetime with
      | none, _ => .ok .missing_order
      | some _, none => .ok .missing_order
      | some fill_price, some fill_dt =>
        .ok (.fill ⟨fill_dt, fill_qty, some fill_price, false⟩)

/-- Follows the spec words of the fill-count property: the number of entries
in the first difference of the position series that are defined, non-zero and
have an available aligned price. -/
def specExpectedFillCount (positions : List (Nat × Option Rat))
    (price : List (Nat × Rat)) : Nat :=
  ((dropZeros (dropNA (seriesDiff positions))).filter
    (fun p => (ffillLookup price p.1).isSome)).length

deriving instance DecidableEq for Except

/-! ### Helper lemmas -/

theorem ListOfFills_map_fill {α : Type} (l : List α) (g : α → Fill) :
    ListOfFills (l.map (fun a => FillResult.fill (g a))) =
      l.map (fun a => FillResult.fill (g a)) := by
  unfold ListOfFills
  rw [List.filter_eq_self]
  intro x hx
  obtain ⟨a, _, rfl⟩ := List.mem_map.1 hx
  simp

theorem fills_eq_map (positions : List (Nat × Option Rat)) (price : List (Nat × Rat)) :
    _list_of_fills_from_position_series_and_prices positions price =
      (dropZeros (dropNA (seriesDiff positions))).map
        (fun p => FillResult.fill ⟨p.1, p.2, ffillLookup price p.1, false⟩) := by
  unfold _list_of_fills_from_position_series_and_prices
  unfold _get_valid_trades_and_aligned_prices
  simp only [List.map_map, List.zip_map', Function.comp]
  exact ListOfFills_map_fill _ _

theorem from_pos_eq_map (positions : List (Nat × Option Rat)) (price : List (Nat × Rat)) :
    ListOfFills.from_position_series_and_prices positions price =
      (dropZeros (dropNA (seriesDiff positions))).map
        (fun p => FillResult.fill ⟨p.1, p.2, ffillLookup price p.1, false⟩) := by
  unfold ListOfFills.from_position_series_and_prices
  rw [fills_eq_map]
  exact ListOfFills_map_fill _ _

theorem mem_of_getLast?_eq {α : Type} {l : List α} {e : α} (h : l.getLast? = some e) :
    e ∈ l := by
  obtain ⟨hn, he⟩ := List.mem_getLast?_eq_getLast (Option.mem_def.2 h)
  exact he ▸ List.getLast_mem hn

theorem pairwise_last_le {l : List (Nat × Rat)} {e : Nat × Rat}
    (hp : l.Pairwise (fun a b => a.1 < b.1)) (he : l.getLast? = some e) :
    ∀ x ∈ l, x.1 ≤ e.1 := by
  induction l with
  | nil => simp at he
  | cons a tl ih =>
    rw [List.pairwise_cons] at hp
    obtain ⟨ha, hp'⟩ := hp
    cases tl with
    | nil =>
      simp only [List.getLast?_singleton, Option.some.injEq] at he
      subst he
      simp
    | cons b tl' =>
      rw [List.getLast?_cons_cons] at he
      intro x hx
      rcases List.mem_cons.1 hx with rfl | hx'
      · exact le_of_lt (ha e (mem_of_getLast?_eq he))
      · exact ih hp' he x hx'

theorem ffillEntry_mem {price : List (Nat × Rat)} {t : Nat} {e : Nat × Rat}
    (h : ffillEntry price t = some e) : e ∈ price ∧ e.1 ≤ t := by
  have hm := mem_of_getLast?_eq h
  rw [List.mem_filter] at hm
  exact ⟨hm.1, by simpa using hm.2⟩

theorem ffillEntry_isSome {price : List (Nat × Rat)} {t s : Nat} {p : Rat}
    (hm : (s, p) ∈ price) (hle : s ≤ t) : (ffillEntry price t).isSome := by
  unfold ffillEntry
  rw [List.getLast?_isSome]
  intro hnil
  have : (s, p) ∈ price.filter (fun q => q.1 ≤ t) :=
    List.mem_filter.2 ⟨hm, by simpa using hle⟩
  rw [hnil] at this
  exact List.not_mem_nil _ this

theorem ffillEntry_most_recent {price : List (Nat × Rat)} {t : Nat} {e : Nat × Rat}
    (hp : price.Pairwise (fun a b => a.1 < b.1)) (h : ffillEntry price t = some e) :
    ∀ x ∈ price, x.1 ≤ t → x.1 ≤ e.1 := by
  intro x hx hxt
  have hpf : (price.filter (fun q => q.1 ≤ t)).Pairwise (fun a b => a.1 < b.1) :=
    hp.sublist (List.filter_sublist price)
  have hxf : x ∈ price.filter (fun q => q.1 ≤ t) :=
    List.mem_filter.2 ⟨hx, by simpa using hxt⟩
  exact pairwise_last_le hpf h x hxf

theorem ffillLookup_exact {price : List (Nat × Rat)} {t : Nat} {p : Rat}
    (hp : price.Pairwise (fun a b => a.1 < b.1)) (hm : (t, p) ∈ price) :
    ffillLookup price t = some p := by
  induction price with
  | nil => cases hm
  | cons a tl ih =>
    rw [List.pairwise_cons] at hp
    obtain ⟨ha, hp'⟩ := hp
    rcases List.mem_cons.1 hm with rfl | hm'
    · have hfe : tl.filter (fun q => q.1 ≤ t) = [] := by
        rw [List.filter_eq_nil_iff]
        intro x hx
        have := ha x hx
        simp only [decide_eq_true_eq]
        omega
      unfold ffillLookup ffillEntry
      rw [List.filter_cons_of_pos (by simp), hfe]
      rfl
    · have hat : a.1 ≤ t := le_of_lt (by simpa using ha (t, p) hm')
      have ihv := ih hp' hm'
      unfold ffillLookup ffillEntry at ihv ⊢
      rw [List.filter_cons_of_pos (by simpa using hat)]
      obtain ⟨e, he, hep⟩ := Option.map_eq_some'.1 ihv
      cases hfil : tl.filter (fun q => q.1 ≤ t) with
      | nil => rw [hfil] at he; cases he
      | cons b l' =>
        rw [hfil] at he
        rw [List.getLast?_cons_cons, he]
        simpa using hep

/-! ### Claim theorems -/

/-- C1: evaluation of the `ListOfFills` constructor at the two sentinels.  The
claim says construction removes every sentinel entry; in the code the filter
`fill is not (missing_order or not_filled)` only removes `missing_order`
(`(missing_order or not_filled)` evaluates to the truthy `missing_order`), so
the `not_filled` sentinel survives construction, contradicting the adjacent
comment `## will remove unfilled` in `fill_list_of_simple_orders`. -/
theorem C1_not_filled_survives_construction :
    ListOfFills [FillResult.not_filled] = [FillResult.not_filled] ∧
    ListOfFills [FillResult.missing_order] = [] := by
  constructor <;> decide

/-- C2: evaluation of `fill_list_of_simple_orders` at a list of two unfillable
(zero-quantity) orders.  The claim says zero fills produced gives the
`NotFilled` sentinel; because the `ListOfFills` constructor fails to drop the
`not_filled` sentinels, the collection has length 2 and the function raises
the more-than-one-fill exception instead. -/
theorem C2_two_unfillable_orders_raise :
    fill_list_of_simple_orders [⟨0, none⟩, ⟨0, none⟩] 0 100 =
      Except.error "List of orders has produced more than one fill!" := by
  norm_num [fill_list_of_simple_orders, fill_from_simple_order, SimpleOrder.is_zero_order,
    List.mapM, List.mapM.loop, ListOfFills, bind, Except.bind, pure, Except.pure,
    List.filter_cons, throw, throwThe, MonadExceptOf.throw]
  decide

/-- C3 counterexample: positions trade at timestamp 1 (difference 5) with the
only price at the later timestamp 2.  The number of difference entries that
are defined, non-zero and have an available aligned price is 0, but the
deriver still emits 1 fill (with an undefined price), so the claimed count
equality is false at this input. -/
theorem C3_counterexample :
    specExpectedFillCount [(0, some 0), (1, some 5)] [(2, 10)] = 0 ∧
    (ListOfFills.from_position_series_and_prices
        [(0, some 0), (1, some 5)] [(2, 10)]).length = 1 := by
  constructor
  · norm_num [specExpectedFillCount, seriesDiff, diffAux, dropNA, dropZeros,
      ffillLookup, ffillEntry, List.filterMap_cons, List.filter_cons]
  · norm_num [ListOfFills.from_position_series_and_prices,
      _list_of_fills_from_position_series_and_prices, _get_valid_trades_and_aligned_prices,
      seriesDiff, diffAux, dropNA, dropZeros, ffillLookup, ffillEntry, ListOfFills,
      List.filterMap_cons, List.filter_cons, List.zip, List.zipWith, Function.comp]
    decide

/-- C3 (amended): the number of fills returned by the position-series deriver
equals the number of defined, non-zero entries of the first difference of the
position series; availability of an aligned price does not affect the count
(a trade with no price at or before its timestamp yields a fill with an
undefined price). -/
theorem C3_fill_count (positions : List (Nat × Option Rat)) (price : List (Nat × Rat)) :
    (ListOfFills.from_position_series_and_prices positions price).length =
      (dropZeros (dropNA (seriesDiff positions))).length := by
  rw [from_pos_eq_map, List.length_map]

/-- C8 counterexample: with a non-empty position series carrying one non-zero
trade and an EMPTY price series, the deriver returns a one-element collection
(the fill carries an undefined price), not the empty collection the claim
promises for every empty price series. -/
theorem C8_counterexample :
    ListOfFills.from_position_series_and_prices [(0, some 0), (1, some 5)] [] =
      [FillResult.fill ⟨1, 5, none, false⟩] ∧
    ListOfFills.from_position_series_and_prices [(0, some 0), (1, some 5)] [] ≠ [] := by
  have h : ListOfFills.from_position_series_and_prices [(0, some 0), (1, some 5)] [] =
      [FillResult.fill ⟨1, 5, none, false⟩] := by
    norm_num [ListOfFills.from_position_series_and_prices,
      _list_of_fills_from_position_series_and_prices, _get_valid_trades_and_aligned_prices,
      seriesDiff, diffAux, dropNA, dropZeros, ffillLookup, ffillEntry, ListOfFills,
      List.filterMap_cons, List.filter_cons, List.zip, List.zipWith, Function.comp]
    decide
  exact ⟨h, by rw [h]; simp⟩

/-- C8 (amended): the deriver is a pure total function; for an EMPTY position
series it returns the empty collection (for any price series, empty or not).
An empty price series alone does not force an empty result: each surviving
trade still yields a fill, with an undefined price. -/
theorem C8_empty_positions (price : List (Nat × Rat)) :
    ListOfFills.from_position_series_and_prices [] price = [] := rfl

theorem fill_from_simple_limit_order_some (q l mp : Rat) (dt : Nat) :
    fill_from_simple_limit_order ⟨q, some l⟩ mp dt =
      if q > 0 ∧ l > mp then
        Except.ok (FillResult.fill ⟨dt, q, some l, true⟩)
      else if q < 0 ∧ l < mp then
        Except.ok (FillResult.fill ⟨dt, q, some l, true⟩)
      else
        Except.ok FillResult.not_filled := rfl

/-- C4: a limit order with nonzero quantity fills iff the limit crosses the
market price (buy: limit above market; sell: limit below market); a fill is
priced exactly at the limit with `includes_slippage = true`, and otherwise
the result is the `NotFilled` sentinel. -/
theorem C4_limit_order_crossing (q l mp : Rat) (dt : Nat) (hq : q ≠ 0) :
    (0 < q →
      (mp < l →
        fill_from_simple_limit_order ⟨q, some l⟩ mp dt =
          Except.ok (FillResult.fill ⟨dt, q, some l, true⟩)) ∧
      (¬ mp < l →
        fill_from_simple_limit_order ⟨q, some l⟩ mp dt =
          Except.ok FillResult.not_filled)) ∧
    (q < 0 →
      (l < mp →
        fill_from_simple_limit_order ⟨q, some l⟩ mp dt =
          Except.ok (FillResult.fill ⟨dt, q, some l, true⟩)) ∧
      (¬ l < mp →
        fill_from_simple_limit_order ⟨q, some l⟩ mp dt =
          Except.ok FillResult.not_filled)) := by
  rw [fill_from_simple_limit_order_some]
  constructor
  · intro h0
    constructor
    · intro hc
      rw [if_pos ⟨h0, hc⟩]
    · intro hnc
      rw [if_neg (by tauto), if_neg (by rintro ⟨h1, h2⟩; linarith)]
  · intro h0
    constructor
    · intro hc
      rw [if_neg (by rintro ⟨h1, h2⟩; linarith), if_pos ⟨h0, hc⟩]
    · intro hnc
      rw [if_neg (by rintro ⟨h1, h2⟩; linarith), if_neg (by tauto)]

theorem limit_order_fill_or_not (q l mp : Rat) (dt : Nat) :
    (∃ f : Fill, fill_from_simple_limit_order ⟨q, some l⟩ mp dt =
        Except.ok (FillResult.fill f)) ∨
    fill_from_simple_limit_order ⟨q, some l⟩ mp dt = Except.ok FillResult.not_filled := by
  rw [fill_from_simple_limit_order_some]
  split_ifs with h1 h2
  · exact Or.inl ⟨_, rfl⟩
  · exact Or.inl ⟨_, rfl⟩
  · exact Or.inr rfl

/-- C5: the order-fill resolver always returns (never raises), never returns
the `MissingFill` sentinel, sends every zero-quantity order to `NotFilled`,
and fills every (nonzero-quantity) market order at the market price with
quantity equal to the order quantity and no slippage. -/
theorem C5_resolver_contract (o : SimpleOrder) (mp : Rat) (dt : Nat) :
    (∃ r, fill_from_simple_order o mp dt = Except.ok r) ∧
    fill_from_simple_order o mp dt ≠ Except.ok FillResult.missing_order ∧
    (o.quantity = 0 → fill_from_simple_order o mp dt = Except.ok FillResult.not_filled) ∧
    (o.quantity ≠ 0 → o.limit_price = none →
      fill_from_simple_order o mp dt =
        Except.ok (FillResult.fill ⟨dt, o.quantity, some mp, false⟩)) := by
  obtain ⟨q, lp⟩ := o
  by_cases hq : q = 0
  · subst hq
    have hz : fill_from_simple_order ⟨0, lp⟩ mp dt = Except.ok FillResult.not_filled := by
      simp [fill_from_simple_order, SimpleOrder.is_zero_order]
    refine ⟨⟨FillResult.not_filled, hz⟩, by rw [hz]; simp, fun _ => hz,
      fun h _ => absurd rfl h⟩
  · cases lp with
    | none =>
      have hmkt : fill_from_simple_order ⟨q, none⟩ mp dt =
          Except.ok (FillResult.fill ⟨dt, q, some mp, false⟩) := by
        simp [fill_from_simple_order, SimpleOrder.is_zero_order,
          SimpleOrder.is_market_order, fill_from_simple_market_order, hq]
      refine ⟨⟨_, hmkt⟩, by rw [hmkt]; simp, fun h => absurd h hq, fun _ _ => hmkt⟩
    | some l =>
      have hred : fill_from_simple_order ⟨q, some l⟩ mp dt =
          fill_from_simple_limit_order ⟨q, some l⟩ mp dt := by
        simp [fill_from_simple_order, SimpleOrder.is_zero_order,
          SimpleOrder.is_market_order, hq]
      rw [hred]
      rcases limit_order_fill_or_not q l mp dt with ⟨f, hf⟩ | hnf
      · exact ⟨⟨_, hf⟩, by rw [hf]; simp, fun h => absurd h hq, fun _ h => by cases h⟩
      · exact ⟨⟨_, hnf⟩, by rw [hnf]; simp, fun h => absurd h hq, fun _ h => by cases h⟩

theorem fill_from_order_red (tr fl : List Rat) (pr : Option Rat) (dt : Option Nat) :
    fill_from_order ⟨tr, fl, pr, dt⟩ =
      if tr.length ≠ 1 then Except.error "Cant get fills from multi-leg orders"
      else if fl.sum == 0 then Except.ok FillResult.missing_order
      else
        match fl.head? with
        | none => Except.error "IndexError"
        | some fill_qty =>
          match pr, dt with
          | none, _ => Except.ok FillResult.missing_order
          | some _, none => Except.ok FillResult.missing_order
          | some fill_price, some fill_dt =>
            Except.ok (FillResult.fill ⟨fill_dt, fill_qty, some fill_price, false⟩) := rfl

/-- C6: the generic order fill extractor applies its checks in order: a trade
vector without exactly one leg raises; then a zero net fill returns
`MissingFill`; then an absent filled price returns `MissingFill`; then an
absent fill timestamp returns `MissingFill`; otherwise it builds a `Fill`
from the timestamp, the first entry of the filled-quantity vector and the
filled price, with `includes_slippage` left at its default `false`. -/
theorem C6_extractor_check_order (tr fl : List Rat) (pr : Option Rat) (dt : Option Nat) :
    (tr.length ≠ 1 →
      fill_from_order ⟨tr, fl, pr, dt⟩ =
        Except.error "Cant get fills from multi-leg orders") ∧
    (tr.length = 1 → fl.sum = 0 →
      fill_from_order ⟨tr, fl, pr, dt⟩ = Except.ok FillResult.missing_order) ∧
    (tr.length = 1 → fl.sum ≠ 0 → pr = none →
      fill_from_order ⟨tr, fl, pr, dt⟩ = Except.ok FillResult.missing_order) ∧
    (∀ p, tr.length = 1 → fl.sum ≠ 0 → pr = some p → dt = none →
      fill_from_order ⟨tr, fl, pr, dt⟩ = Except.ok FillResult.missing_order) ∧
    (∀ p t, tr.length = 1 → fl.sum ≠ 0 → pr = some p → dt = some t →
      ∃ f₀, fl.head? = some f₀ ∧
        fill_from_order ⟨tr, fl, pr, dt⟩ =
          Except.ok (FillResult.fill ⟨t, f₀, some p, false⟩)) := by
  rw [fill_from_order_red]
  refine ⟨fun h1 => by rw [if_pos h1], ?_, ?_, ?_, ?_⟩
  all_goals
    first
    | (intro h1 h2 h3
       subst h3
       rw [if_neg (by simpa using h1), if_neg (by simpa using h2)]
       cases hh : fl.head? with
       | none => exact absurd (List.head?_eq_none_iff.1 hh ▸ rfl) h2
       | some f₀ => rfl)
    | (intro h1 h2
       rw [if_neg (by simpa using h1), if_pos (by simpa using h2)])
    | (intro p h1 h2 h3 h4
       subst h3; subst h4
       rw [if_neg (by simpa using h1), if_neg (by simpa using h2)]
       cases hh : fl.head? with
       | none => exact absurd (List.head?_eq_none_iff.1 hh ▸ rfl) h2
       | some f₀ => rfl)
    | (intro p t h1 h2 h3 h4
       subst h3; subst h4
       rw [if_neg (by simpa using h1), if_neg (by simpa using h2)]
       cases hh : fl.head? with
       | none => exact absurd (List.head?_eq_none_iff.1 hh ▸ rfl) h2
       | some f₀ => exact ⟨f₀, rfl, rfl⟩)

/-- C10: the extractor validates only the trade-vector length, never the
length of the filled-quantity vector, and the quantity of the returned fill
is the FIRST element of the filled-quantity vector (not of the trade vector):
a single-leg order whose ordered quantity is `q` but whose filled-quantity
vector starts with `f₀` yields a fill of quantity `f₀`. -/
theorem C10_fill_qty_from_fill_vector (q f₀ : Rat) (rest : List Rat) (p : Rat) (t : Nat)
    (hnz : (f₀ :: rest).sum ≠ 0) :
    fill_from_order ⟨[q], f₀ :: rest, some p, some t⟩ =
      Except.ok (FillResult.fill ⟨t, f₀, some p, false⟩) := by
  rw [fill_from_order_red]
  rw [if_neg (by simp), if_neg (by simpa using hnz)]
  rfl

/-- C7: every fill emitted by the position-series deriver has the trade
timestamp as its date, the first-difference value at that timestamp as its
quantity, `includes_slippage = false`, and a price given by last-known-value
alignment: the price at the exact timestamp when the (strictly increasing)
price series has one, otherwise the most recent earlier price and never a
price from a later timestamp; whenever a price at or before the trade
timestamp exists the fill price is defined. -/
theorem C7_deriver_fill_fields (positions : List (Nat × Option Rat))
    (price : List (Nat × Rat)) (hp : price.Pairwise (fun a b => a.1 < b.1))
    (f : Fill)
    (hf : FillResult.fill f ∈ ListOfFills.from_position_series_and_prices positions price) :
    (f.date, f.qty) ∈ dropZeros (dropNA (seriesDiff positions)) ∧
    f.includes_slippage = false ∧
    (∀ p, (f.date, p) ∈ price → f.price = some p) ∧
    (∀ p, f.price = some p →
      ∃ s, (s, p) ∈ price ∧ s ≤ f.date ∧ ∀ x ∈ price, x.1 ≤ f.date → x.1 ≤ s) ∧
    ((∃ s q, (s, q) ∈ price ∧ s ≤ f.date) → f.price.isSome) := by
  rw [from_pos_eq_map] at hf
  obtain ⟨a, ha, hfa⟩ := List.mem_map.1 hf
  have hfeq : f = ⟨a.1, a.2, ffillLookup price a.1, false⟩ := by
    cases FillResult.fill.inj hfa.symm
    rfl
  subst hfeq
  refine ⟨by simpa using ha, rfl, ?_, ?_, ?_⟩
  · intro p hm
    exact ffillLookup_exact hp hm
  · intro p hsome
    obtain ⟨e, he, hep⟩ := Option.map_eq_some'.1 hsome
    obtain ⟨hmem, hle⟩ := ffillEntry_mem he
    refine ⟨e.1, ?_, hle, ffillEntry_most_recent hp he⟩
    have : (e.1, p) = e := by
      cases e
      cases hep
      rfl
    rw [this]
    exact hmem
  · rintro ⟨s, q, hm, hle⟩
    have := ffillEntry_isSome hm hle
    simpa [ffillLookup] using this

theorem rows_eq_map (fills : List Fill) :
    (fills.map Fill.date).zip ((fills.map Fill.qty).zip (fills.map Fill.price)) =
      fills.map (fun f => (f.date, f.qty, f.price)) := by
  rw [List.zip_map', List.zip_map']

/-- C9: whenever every member of the collection is a genuine fill, the
tabular projection succeeds and produces exactly one (date, qty, price) row
per fill (a permutation of the fills' rows), ordered ascending by the date
index. -/
theorem C9_table_sorted_rows (l : List FillResult) (fills : List Fill)
    (h : l.mapM asFill = some fills) :
    ∃ rows, ListOfFills.as_pd_df l = some rows ∧
      rows.Perm (fills.map (fun f => (f.date, f.qty, f.price))) ∧
      rows.Sorted rowLe := by
  refine ⟨List.insertionSort rowLe (fills.map (fun f => (f.date, f.qty, f.price))), ?_, ?_, ?_⟩
  · unfold ListOfFills.as_pd_df _as_dict_of_lists
    rw [h]
    simp only [Option.map_some']
    rw [rows_eq_map]
  · exact List.perm_insertionSort rowLe _
  · exact List.sorted_insertionSort rowLe _

/-- Witness for C4: a marketable buy limit order (limit 101 above market 100)
fills at the limit with slippage; an unmarketable one (limit 99) does not. -/
theorem C4_limit_order_crossing_witness :
    fill_from_simple_limit_order ⟨10, some 101⟩ 100 0 =
      Except.ok (FillResult.fill ⟨0, 10, some 101, true⟩) ∧
    fill_from_simple_limit_order ⟨10, some 99⟩ 100 0 =
      Except.ok FillResult.not_filled :=
  ⟨((C4_limit_order_crossing 10 101 100 0 (by norm_num)).1 (by norm_num)).1 (by norm_num),
   ((C4_limit_order_crossing 10 99 100 0 (by norm_num)).1 (by norm_num)).2 (by norm_num)⟩

/-- Witness for C5: a zero order gives `NotFilled`; a market order for 3 at
market 100 fills at 100 without slippage. -/
theorem C5_resolver_contract_witness :
    fill_from_simple_order ⟨0, some 5⟩ 100 0 = Except.ok FillResult.not_filled ∧
    fill_from_simple_order ⟨3, none⟩ 100 7 =
      Except.ok (FillResult.fill ⟨7, 3, some 100, false⟩) :=
  ⟨(C5_resolver_contract ⟨0, some 5⟩ 100 0).2.2.1 rfl,
   (C5_resolver_contract ⟨3, none⟩ 100 7).2.2.2 (by norm_num) rfl⟩

/-- Witness for C6: each check of the extractor exercised at a concrete
order. -/
theorem C6_extractor_check_order_witness :
    fill_from_order ⟨[5, 5], [5], some 100, some 0⟩ =
      Except.error "Cant get fills from multi-leg orders" ∧
    fill_from_order ⟨[5], [0], some 100, some 0⟩ = Except.ok FillResult.missing_order ∧
    fill_from_order ⟨[5], [5], none, some 0⟩ = Except.ok FillResult.missing_order ∧
    fill_from_order ⟨[5], [5], some 100, none⟩ = Except.ok FillResult.missing_order ∧
    ∃ f₀, List.head? [(5 : Rat)] = some f₀ ∧
      fill_from_order ⟨[5], [5], some 100, some 3⟩ =
        Except.ok (FillResult.fill ⟨3, f₀, some 100, false⟩) :=
  ⟨(C6_extractor_check_order [5, 5] [5] (some 100) (some 0)).1 (by norm_num),
   (C6_extractor_check_order [5] [0] (some 100) (some 0)).2.1 rfl
     (by norm_num [List.sum_cons, List.sum_nil]),
   (C6_extractor_check_order [5] [5] none (some 0)).2.2.1 rfl
     (by norm_num [List.sum_cons, List.sum_nil]) rfl,
   (C6_extractor_check_order [5] [5] (some 100) none).2.2.2.1 100 rfl
     (by norm_num [List.sum_cons, List.sum_nil]) rfl rfl,
   (C6_extractor_check_order [5] [5] (some 100) (some 3)).2.2.2.2 100 3 rfl
     (by norm_num [List.sum_cons, List.sum_nil]) rfl rfl⟩

/-- Witness for C7: the fill derived from a position change 0 → 3 at time 2,
with prices at times 0, 1 and 3, is a genuine trade of the difference
series. -/
theorem C7_deriver_fill_fields_witness :
    ((2 : Nat), (3 : Rat)) ∈ dropZeros (dropNA (seriesDiff [(0, some 0), (2, some 3)])) :=
  (C7_deriver_fill_fields [(0, some 0), (2, some 3)] [(0, 10), (1, 11), (3, 13)]
    (by decide) ⟨2, 3, some 11, false⟩
    (by
      have h : ListOfFills.from_position_series_and_prices [(0, some 0), (2, some 3)]
          [(0, 10), (1, 11), (3, 13)] = [FillResult.fill ⟨2, 3, some 11, false⟩] := by
        norm_num [ListOfFills.from_position_series_and_prices,
          _list_of_fills_from_position_series_and_prices,
          _get_valid_trades_and_aligned_prices, seriesDiff, diffAux, dropNA, dropZeros,
          ffillLookup, ffillEntry, ListOfFills, List.filterMap_cons, List.filter_cons,
          List.zip, List.zipWith, Function.comp]
        decide
      rw [h]
      exact List.mem_singleton.2 rfl)).1

/-- Witness for C9: a two-fill collection with out-of-order dates projects to
a sorted two-row table. -/
theorem C9_table_sorted_rows_witness :
    ∃ rows,
      ListOfFills.as_pd_df
          [FillResult.fill ⟨5, 1, some 10, false⟩, FillResult.fill ⟨3, 2, some 20, false⟩] =
        some rows ∧
      rows.Perm
        (([⟨5, 1, some 10, false⟩, ⟨3, 2, some 20, false⟩] : List Fill).map
          (fun f => (f.date, f.qty, f.price))) ∧
      rows.Sorted rowLe :=
  C9_table_sorted_rows _ _ rfl

/-- Witness for C10: an order for 10 filled with 5 yields a fill of quantity
5, which differs from the ordered quantity 10. -/
theorem C10_fill_qty_from_fill_vector_witness :
    fill_from_order ⟨[10], [5], some 100, some 0⟩ =
      Except.ok (FillResult.fill ⟨0, 5, some 100, false⟩) ∧ (5 : Rat) ≠ 10 :=
  ⟨C10_fill_qty_from_fill_vector 10 5 [] 100 0 (by norm_num [List.sum_cons, List.sum_nil]),
   by norm_num⟩
